import Mathlib

/-!
Verification of the git-profile CLI (Go) against its specification.

The repository stores named Git identity profiles in a JSON file
(`~/.git-profiles.json`) and applies one of them to the Git configuration
via `git config`.  The development below is a shallow embedding of the
pure logic of the Go source: the `Profile` record, the profile store
(a Go `map[string]Profile`, modelled as an association list with map
semantics), the interactive editor's merge rule, the add/list/apply/
import/export commands, and the JSON (de)serialization shape produced by
`encoding/json` for these types.
-/

/-- Models the Go struct `Profile` (`main.go`, `part_000`): fields `Name`,
`Email`, and the nested `Signing.Key` (flattened here to `signingKey`;
the nesting only matters for the JSON shape, handled in `marshalProfile`). -/
structure Profile where
  name : String
  email : String
  signingKey : String
deriving DecidableEq, Repr

/-- Whitespace test used by Go's `strings.TrimSpace` (`unicode.IsSpace`),
restricted to the Latin-1 range: space, tab, newline, vertical tab, form
feed, carriage return, next line, no-break space.  (The inputs in this
program are single lines read from standard input, so the wider Unicode
White_Space set never arises beyond these.) -/
def isSpaceChar (c : Char) : Bool :=
  c.toNat = 32 || c.toNat = 9 || c.toNat = 10 || c.toNat = 11 ||
  c.toNat = 12 || c.toNat = 13 || c.toNat = 133 || c.toNat = 160

/-- Models Go's `strings.TrimSpace`: drop leading and trailing whitespace. -/
def trimSpace (s : String) : String :=
  String.mk (((s.data.dropWhile isSpaceChar).reverse.dropWhile isSpaceChar).reverse)

/-- The profile store, Go `map[string]Profile` (field `ConfigManager.Profiles`).
Modelled as an association list; Go map semantics (unique keys, lookup,
assignment) are given by `lookupProfile` / `insertProfile` below. -/
abbrev Store := List (String × Profile)

/-- Map lookup `m[name]` on the store. -/
def lookupProfile : Store → String → Option Profile
  | [], _ => none
  | (k, v) :: rest, n => if k = n then some v else lookupProfile rest n

/-- Go's `_, exists := m[name]` test. -/
def containsName (s : Store) (n : String) : Bool :=
  (lookupProfile s n).isSome

/-- Go map assignment `m[name] = p`: replaces the binding if the key is
present, otherwise adds it. -/
def insertProfile : Store → String → Profile → Store
  | [], n, p => [(n, p)]
  | (k, v) :: rest, n, p =>
    if k = n then (n, p) :: rest else (k, v) :: insertProfile rest n p

/-- Models `interactiveProfileInput` (`part_000` lines 404-447).  The three
raw prompt inputs are trimmed (`strings.TrimSpace`); for name and email,
an empty trimmed input with an existing profile keeps the existing value,
otherwise the (trimmed) input is taken; a non-empty trimmed signing-key
input replaces the key, an empty one keeps the existing key when an
existing profile is present (and the zero value `""` otherwise). -/
def interactiveProfileInput (existing : Option Profile)
    (nameInput emailInput signingInput : String) : Profile :=
  let name := trimSpace nameInput
  let email := trimSpace emailInput
  let signingKey := trimSpace signingInput
  { name :=
      match existing with
      | some p => if name = "" then p.name else name
      | none => name
    email :=
      match existing with
      | some p => if email = "" then p.email else email
      | none => email
    signingKey :=
      if signingKey ≠ "" then signingKey
      else
        match existing with
        | some p => p.signingKey
        | none => "" }

/-- C1: the interactive editor's merge rule on an existing profile: each of
the three fields keeps the prior value on empty (trimmed) input and is
replaced by the input otherwise; consequently all-empty input returns the
original profile unchanged, and input that is empty except for the email
field changes only the email. -/
theorem interactiveProfileInput_merge_rule (p : Profile) (n e k : String) :
    (interactiveProfileInput (some p) n e k).name
      = (if trimSpace n = "" then p.name else trimSpace n) ∧
    (interactiveProfileInput (some p) n e k).email
      = (if trimSpace e = "" then p.email else trimSpace e) ∧
    (interactiveProfileInput (some p) n e k).signingKey
      = (if trimSpace k = "" then p.signingKey else trimSpace k) ∧
    (trimSpace n = "" ∧ trimSpace e = "" ∧ trimSpace k = "" →
      interactiveProfileInput (some p) n e k = p) ∧
    (trimSpace n = "" ∧ trimSpace k = "" ∧ trimSpace e ≠ "" →
      interactiveProfileInput (some p) n e k
        = Profile.mk p.name (trimSpace e) p.signingKey) := by
  refine ⟨?_, ?_, ?_, ?_, ?_⟩
  · simp only [interactiveProfileInput]
  · simp only [interactiveProfileInput]
  · simp only [interactiveProfileInput, ne_eq, ite_not]
  · rintro ⟨hn, he, hk⟩
    simp [interactiveProfileInput, hn, he, hk]
  · rintro ⟨hn, hk, he⟩
    simp [interactiveProfileInput, hn, he, hk]

/-- Witness for `interactiveProfileInput_merge_rule` at a concrete profile:
all-empty input preserves the profile, and an email-only input replaces
exactly the email. -/
theorem interactiveProfileInput_merge_rule_witness :
    interactiveProfileInput (some (Profile.mk "Jane" "jane@x.com" "ABCD")) "" "" ""
      = Profile.mk "Jane" "jane@x.com" "ABCD" ∧
    interactiveProfileInput (some (Profile.mk "Jane" "jane@x.com" "ABCD")) "" "new@x.com" ""
      = Profile.mk "Jane" "new@x.com" "ABCD" := by
  constructor
  · exact (interactiveProfileInput_merge_rule
      (Profile.mk "Jane" "jane@x.com" "ABCD") "" "" "").2.2.2.1
      ⟨by decide, by decide, by decide⟩
  · have h := (interactiveProfileInput_merge_rule
      (Profile.mk "Jane" "jane@x.com" "ABCD") "" "new@x.com" "").2.2.2.2
      ⟨by decide, by decide, by decide⟩
    simpa using h

/-- Validation used by the interactive `add` command's profile-name prompt
(`part_000` lines 548-558): rejects an empty name and a name already
present in the store; returns the error message on rejection. -/
def addValidate (store : Store) (input : String) : Option String :=
  if input = "" then some "profile name cannot be empty"
  else if containsName store input then
    some ("profile " ++ input ++ " already exists")
  else none

/-- Models one round of the interactive `addCmd` (`part_000` lines 542-575):
the name prompt validates the entered profile name with `addValidate`; on a
validation failure the command reports the error and leaves the store
untouched; on success the profile collected by `interactiveProfileInput` is
stored under the name and the store is saved.  The result is the new store
paired with the reported validation error, if any. -/
def addCmd (store : Store) (nameInput : String) (details : Profile) :
    Store × Option String :=
  match addValidate store nameInput with
  | some e => (store, some e)
  | none => (insertProfile store nameInput details, none)

/-- Models the non-interactive `addCmd` of the minimal variant
(`main.go` lines 104-123): takes the profile name, user name and email as
arguments and stores the profile unconditionally — no duplicate or
emptiness check — then saves. -/
def mainGoAddCmd (store : Store) (profileName username email : String) : Store :=
  insertProfile store profileName (Profile.mk username email "")

/-- The import strategy chosen at the interactive strategy prompt
(`part_000` lines 744-756). -/
inductive ImportStrategy
  | merge
  | replace
deriving DecidableEq, Repr

/-- The merge branch of `ConfigManager.Import` (`part_000` lines 760-765):
for each imported entry whose name does not yet exist in the (evolving)
store, insert it; entries whose name already exists are skipped. -/
def mergeProfiles (store imported : Store) : Store :=
  imported.foldl
    (fun acc entry =>
      if containsName acc entry.1 then acc else insertProfile acc entry.1 entry.2)
    store

/-- Models `ConfigManager.Import` (`part_000` lines 731-775) after the file
has been read, parsed into `imported`, and a strategy selected: merge keeps
the current store and adds only new names; replace substitutes the imported
mapping wholesale.  The `Bool` component records that `cm.save()` is called
(the result is persisted) on either branch. -/
def ConfigManager.Import (store imported : Store) (strategy : ImportStrategy) :
    Store × Bool :=
  match strategy with
  | .merge => (mergeProfiles store imported, true)
  | .replace => (imported, true)

theorem lookupProfile_insertProfile (s : Store) (k : String) (p : Profile)
    (n : String) :
    lookupProfile (insertProfile s k p) n
      = if k = n then some p else lookupProfile s n := by
  induction s with
  | nil => simp [insertProfile, lookupProfile]
  | cons hd tl ih =>
    obtain ⟨hk, hv⟩ := hd
    by_cases h1 : hk = k
    · subst h1
      by_cases h2 : hk = n <;> simp [insertProfile, lookupProfile, h2]
    · by_cases h2 : hk = n
      · subst h2
        have h1' : k ≠ hk := fun h => h1 h.symm
        simp [insertProfile, lookupProfile, h1, h1', ih]
      · simp [insertProfile, lookupProfile, h1, h2, ih]

theorem lookupProfile_mergeProfiles (store imported : Store) (n : String) :
    lookupProfile (mergeProfiles store imported) n
      = (lookupProfile store n).or (lookupProfile imported n) := by
  induction imported generalizing store with
  | nil => simp [mergeProfiles, lookupProfile]
  | cons hd tl ih =>
    obtain ⟨hk, hv⟩ := hd
    simp only [mergeProfiles, List.foldl_cons] at *
    by_cases hc : containsName store hk
    · rw [if_pos hc, ih]
      by_cases hn : hk = n
      · subst hn
        rcases ho : lookupProfile store hk with _ | q
        · simp [containsName, ho] at hc
        · simp [ho, lookupProfile]
      · simp [lookupProfile, hn]
    · rw [if_neg hc, ih, lookupProfile_insertProfile]
      by_cases hn : hk = n
      · subst hn
        have ho : lookupProfile store hk = none := by
          rcases h : lookupProfile store hk with _ | q
          · rfl
          · simp [containsName, h] at hc
        simp [ho, lookupProfile]
      · simp [hn, lookupProfile]

/-- C2 counterexample: in the minimal non-interactive variant
(`main.go` `addCmd`), adding under the already-present name `work` is not
rejected: the store changes and the existing profile is overwritten, so the
add operation as a whole does not reject duplicates for every store. -/
theorem mainGoAddCmd_overwrites_duplicate :
    mainGoAddCmd [("work", Profile.mk "Old Name" "old@x.com" "")]
        "work" "New Name" "new@x.com"
      ≠ [("work", Profile.mk "Old Name" "old@x.com" "")] ∧
    lookupProfile
        (mainGoAddCmd [("work", Profile.mk "Old Name" "old@x.com" "")]
          "work" "New Name" "new@x.com") "work"
      = some (Profile.mk "New Name" "new@x.com" "") := by
  decide

/-- C2 amended: in the interactive variants, the `add` command's name prompt
rejects an empty name and a name already present in the store; in either
case the store is left unchanged and a validation error is reported to the
caller (the command returns instead of terminating the process). -/
theorem addCmd_rejects_invalid_name (store : Store) (nameInput : String)
    (details : Profile)
    (h : nameInput = "" ∨ containsName store nameInput = true) :
    (addCmd store nameInput details).1 = store ∧
    (addCmd store nameInput details).2.isSome = true := by
  rcases h with h | h
  · subst h
    simp [addCmd, addValidate]
  · by_cases he : nameInput = ""
    · subst he
      simp [addCmd, addValidate]
    · simp [addCmd, addValidate, he, h]

/-- Witness for `addCmd_rejects_invalid_name`: adding the duplicate name
`work` to a store already containing `work` leaves the store unchanged and
reports an error. -/
theorem addCmd_rejects_invalid_name_witness :
    (addCmd [("work", Profile.mk "Jane" "jane@x.com" "")] "work"
        (Profile.mk "New" "new@x.com" "")).1
      = [("work", Profile.mk "Jane" "jane@x.com" "")] ∧
    (addCmd [("work", Profile.mk "Jane" "jane@x.com" "")] "work"
        (Profile.mk "New" "new@x.com" "")).2.isSome = true :=
  addCmd_rejects_invalid_name
    [("work", Profile.mk "Jane" "jane@x.com" "")] "work"
    (Profile.mk "New" "new@x.com" "") (Or.inr (by decide))

/-- C3: import with the merge strategy yields a store that maps each name to
the current store's entry when present, and otherwise to the imported
entry when present (so exactly the imported names not already present are
added and existing entries are never overwritten); the replace strategy
substitutes the imported mapping wholesale; both strategies persist the
result. -/
theorem Import_merge_replace (store imported : Store) :
    (∀ n, lookupProfile (ConfigManager.Import store imported .merge).1 n
        = (lookupProfile store n).or (lookupProfile imported n)) ∧
    (ConfigManager.Import store imported .replace).1 = imported ∧
    (∀ strat, (ConfigManager.Import store imported strat).2 = true) := by
  refine ⟨fun n => lookupProfile_mergeProfiles store imported n, rfl, fun strat => ?_⟩
  cases strat <;> rfl

/-- Output of the `ls` command (`part_000` lines 511-540), abstracted from
the printed text: either the "No profiles found" message, or the
"Error retrieving active profile" message (after which the command
returns), or the list of printed profile blocks, each carrying the profile
name, the profile, and whether the `(active)` marker was printed. -/
inductive LsOutput
  | noProfiles
  | activeError
  | listing (entries : List (String × Profile × Bool))
deriving DecidableEq, Repr

/-- Models `listCmd` (`part_000` lines 511-540).  `active` is the result of
`getActiveProfile` (`part_000` lines 450-466): `.ok (name, email)` when
both `git config user.name` and `git config user.email` succeed, `.error`
otherwise.  With an empty store the command prints the no-profiles message
before consulting the external tool; when `getActiveProfile` fails the
command prints the error and returns without listing any profile; otherwise
every stored profile is printed, marked active exactly when its name and
email both equal the reported identity. -/
def listCmd (store : Store) (active : Except Unit (String × String)) : LsOutput :=
  if store.length = 0 then .noProfiles
  else
    match active with
    | .error _ => .activeError
    | .ok (an, ae) =>
      .listing (store.map fun entry =>
        (entry.1, entry.2, entry.2.name = an ∧ entry.2.email = ae))

/-- The profile names printed by an `ls` run. -/
def printedProfiles : LsOutput → List String
  | .noProfiles => []
  | .activeError => []
  | .listing entries => entries.map Prod.fst

/-- C4 counterexample: with the non-empty store containing `work` and the
external tool reporting no configured identity, `ls` prints the error and
returns — it does not print each profile, contradicting the claim that for
every non-empty store each profile is printed (with the failure merely
suppressing the active marker). -/
theorem listCmd_activeError_prints_nothing :
    [("work", Profile.mk "Jane" "jane@x.com" "")] ≠ ([] : Store) ∧
    listCmd [("work", Profile.mk "Jane" "jane@x.com" "")] (.error ())
      = .activeError ∧
    printedProfiles
        (listCmd [("work", Profile.mk "Jane" "jane@x.com" "")] (.error ()))
      = [] := by
  refine ⟨by decide, rfl, rfl⟩

/-- C4 amended: for every non-empty store, when the external tool reports an
identity, `ls` prints every stored profile and marks exactly those whose
name and email match the identity; when the external tool reports no
configured identity, the failure is non-fatal — `ls` prints an error
message and returns without listing (and hence without marking) any
profile. -/
theorem listCmd_marks_active (store : Store) (an ae : String)
    (h : store ≠ []) :
    (∃ entries, listCmd store (Except.ok (an, ae)) = .listing entries ∧
      entries.map Prod.fst = store.map Prod.fst ∧
      ∀ x ∈ entries, x.2.2 = true ↔ (x.2.1.name = an ∧ x.2.1.email = ae)) ∧
    listCmd store (Except.error ()) = .activeError ∧
    printedProfiles (listCmd store (Except.error ())) = [] := by
  have hl : ¬ store.length = 0 := by
    simpa [List.length_eq_zero] using h
  refine ⟨⟨store.map fun entry =>
      (entry.1, entry.2, entry.2.name = an ∧ entry.2.email = ae), ?_, ?_, ?_⟩, ?_, ?_⟩
  · simp [listCmd, hl]
  · simp
  · intro x hx
    simp only [List.mem_map] at hx
    obtain ⟨entry, _, rfl⟩ := hx
    simp
  · simp [listCmd, hl]
  · simp [listCmd, hl, printedProfiles]

/-- Witness for `listCmd_marks_active`: a two-profile store where exactly
the `work` profile matches the reported identity. -/
theorem listCmd_marks_active_witness :
    listCmd
        [("work", Profile.mk "Jane" "jane@x.com" ""),
         ("home", Profile.mk "Jane" "jane@home.org" "")]
        (Except.ok ("Jane", "jane@x.com"))
      = .listing
          [("work", Profile.mk "Jane" "jane@x.com" "", true),
           ("home", Profile.mk "Jane" "jane@home.org" "", false)] ∧
    listCmd
        [("work", Profile.mk "Jane" "jane@x.com" ""),
         ("home", Profile.mk "Jane" "jane@home.org" "")]
        (Except.error ())
      = .activeError := by
  have h := listCmd_marks_active
    [("work", Profile.mk "Jane" "jane@x.com" ""),
     ("home", Profile.mk "Jane" "jane@home.org" "")]
    "Jane" "jane@x.com" (by decide)
  refine ⟨?_, h.2.1⟩
  obtain ⟨⟨entries, he, _, _⟩, _, _⟩ := h
  rw [he]
  congr 1
  have : entries
      = [("work", Profile.mk "Jane" "jane@x.com" "",
            decide ((Profile.mk "Jane" "jane@x.com" "").name = "Jane"
              ∧ (Profile.mk "Jane" "jane@x.com" "").email = "jane@x.com")),
         ("home", Profile.mk "Jane" "jane@home.org" "",
            decide ((Profile.mk "Jane" "jane@home.org" "").name = "Jane"
              ∧ (Profile.mk "Jane" "jane@home.org" "").email = "jane@x.com"))] := by
    have := he
    simp [listCmd] at this
    exact this.symm
  rw [this]
  decide

/-- The fragment of JSON needed for the profile store: strings and objects.
`encoding/json` marshals a `map[string]Profile` to an object of objects
whose leaves are strings, so this fragment is exact for everything the
program writes; for reading, any other JSON shape at these positions makes
`json.Unmarshal` fail, which the embedding represents by a separate
`other` constructor. -/
inductive Json
  | str (s : String)
  | obj (fields : List (String × Json))
  | other

/-- Field access as `encoding/json` decodes an object: fields are processed
in order and a later duplicate overwrites an earlier one, so the last
occurrence wins. -/
def getFieldLast (fields : List (String × Json)) (n : String) : Option Json :=
  fields.foldl (fun acc entry => if entry.1 = n then some entry.2 else acc) none

/-- JSON shape `encoding/json` produces for a `Profile` value: fields in
declaration order; the inner `key` carries `omitempty`, so it is omitted
exactly when the signing key is empty, while the `signing` object itself is
always present (`omitempty` has no effect on a struct-typed field). -/
def marshalProfile (p : Profile) : Json :=
  .obj [("name", .str p.name), ("email", .str p.email),
        ("signing", .obj (if p.signingKey = "" then []
                          else [("key", .str p.signingKey)]))]

/-- JSON shape `encoding/json` produces for the store
(`ConfigManager.save` / `Export`, via `json.MarshalIndent`): an object with
one field per profile name.  (Go emits map keys sorted; the entry order is
irrelevant to the mapping and is kept as-is here.) -/
def marshalStore (s : Store) : Json :=
  .obj (s.map fun entry => (entry.1, marshalProfile entry.2))

/-- Decoding a string-valued struct field: absent means the zero value `""`,
a string is taken as-is, any other shape is an unmarshal error. -/
def decodeStringField (fields : List (String × Json)) (n : String) :
    Option String :=
  match getFieldLast fields n with
  | none => some ""
  | some (.str s) => some s
  | some _ => none

/-- How `json.Unmarshal` decodes a JSON value into a Go `Profile`: the value
must be an object; `name` and `email` decode as string fields (absent means
the zero value); `signing` must be absent or an object whose `key` decodes
as a string field. -/
def unmarshalProfile : Json → Option Profile
  | .obj fields =>
    match decodeStringField fields "name", decodeStringField fields "email" with
    | some nm, some em =>
      match getFieldLast fields "signing" with
      | none => some (Profile.mk nm em "")
      | some (.obj sf) =>
        match decodeStringField sf "key" with
        | some k => some (Profile.mk nm em k)
        | none => none
      | some _ => none
    | _, _ => none
  | _ => none

/-- How `json.Unmarshal` decodes a JSON value into `map[string]Profile`: the
value must be an object; each field decodes into a `Profile` and is
assigned into the map in order (a later duplicate key overwrites an
earlier one). -/
def unmarshalStore (j : Json) : Option Store :=
  match j with
  | .obj fields =>
    fields.foldlM
      (fun acc entry =>
        (unmarshalProfile entry.2).map fun p => insertProfile acc entry.1 p)
      ([] : Store)
  | _ => none

/-- Whether the marshaled form of a profile carries a `signing.key` field. -/
def hasSigningKeyField (j : Json) : Bool :=
  match j with
  | .obj fields =>
    match getFieldLast fields "signing" with
    | some (.obj sf) => (getFieldLast sf "key").isSome
    | _ => false
  | _ => false

theorem unmarshalProfile_marshalProfile (p : Profile) :
    unmarshalProfile (marshalProfile p) = some p := by
  obtain ⟨nm, em, sk⟩ := p
  by_cases hk : sk = ""
  · subst hk
    simp [marshalProfile, unmarshalProfile, decodeStringField, getFieldLast]
  · simp [marshalProfile, unmarshalProfile, decodeStringField, getFieldLast, hk]

theorem containsName_append (s t : Store) (n : String) :
    containsName (s ++ t) n = (containsName s n || containsName t n) := by
  induction s with
  | nil => simp [containsName, lookupProfile]
  | cons hd tl ih =>
    by_cases h : hd.1 = n
    · simp [containsName, lookupProfile, h]
    · simpa [containsName, lookupProfile, h] using ih

theorem insertProfile_absent (s : Store) (n : String) (p : Profile)
    (h : containsName s n = false) :
    insertProfile s n p = s ++ [(n, p)] := by
  induction s with
  | nil => simp [insertProfile]
  | cons hd tl ih =>
    obtain ⟨hk, hv⟩ := hd
    by_cases hn : hk = n
    · subst hn
      simp [containsName, lookupProfile] at h
    · simp only [containsName, lookupProfile, hn, if_false] at h
      simp [insertProfile, hn, ih h]

theorem unmarshalStore_marshal_aux (l : List (String × Profile)) (acc : Store)
    (hn : (l.map Prod.fst).Nodup)
    (hd : ∀ x ∈ l, containsName acc x.1 = false) :
    (l.map fun entry => (entry.1, marshalProfile entry.2)).foldlM
        (fun acc entry =>
          (unmarshalProfile entry.2).map fun p => insertProfile acc entry.1 p)
        acc
      = some (acc ++ l) := by
  induction l generalizing acc with
  | nil => simp
  | cons hdp tl ih =>
    obtain ⟨k, p⟩ := hdp
    simp only [List.map_cons, List.foldlM_cons,
      unmarshalProfile_marshalProfile, Option.map_some', Option.bind_eq_bind,
      Option.some_bind]
    rw [insertProfile_absent acc k p (hd (k, p) (List.mem_cons_self _ _))]
    rw [ih]
    · simp
    · simpa using hn.of_cons
    · intro x hx
      rw [containsName_append]
      have h1 : containsName acc x.1 = false := hd x (List.mem_cons_of_mem _ hx)
      have h2 : containsName [(k, p)] x.1 = false := by
        have hk : k ≠ x.1 := by
          simp only [List.map_cons, List.nodup_cons] at hn
          intro hkx
          exact hn.1 (hkx ▸ List.mem_map_of_mem Prod.fst hx)
        simp [containsName, lookupProfile, hk]
      simp [h1, h2]

/-- C5: for every store whose profile names are distinct (the Go map
invariant), marshaling to JSON and unmarshaling back yields exactly the
same mapping, and the marshaled form of each profile carries a signing-key
field precisely when the profile's signing key is non-empty. -/
theorem marshal_unmarshal_roundtrip (s : Store)
    (h : (s.map Prod.fst).Nodup) :
    unmarshalStore (marshalStore s) = some s ∧
    ∀ x ∈ s, hasSigningKeyField (marshalProfile x.2) = true ↔
      x.2.signingKey ≠ "" := by
  constructor
  · have := unmarshalStore_marshal_aux s [] h
      (by intro x _; simp [containsName, lookupProfile])
    simpa [unmarshalStore, marshalStore] using this
  · intro x _
    by_cases hk : x.2.signingKey = ""
    · simp [hasSigningKeyField, marshalProfile, getFieldLast, hk]
    · simp [hasSigningKeyField, marshalProfile, getFieldLast, hk]

/-- Witness for `marshal_unmarshal_roundtrip`: a two-profile store, one
profile with a signing key and one without, round-trips exactly, and its
marshaled signing-key field is present only for the keyed profile. -/
theorem marshal_unmarshal_roundtrip_witness :
    unmarshalStore (marshalStore
        [("work", Profile.mk "Jane" "jane@x.com" "ABCD"),
         ("home", Profile.mk "Jane" "jane@home.org" "")])
      = some
        [("work", Profile.mk "Jane" "jane@x.com" "ABCD"),
         ("home", Profile.mk "Jane" "jane@home.org" "")] ∧
    hasSigningKeyField (marshalProfile (Profile.mk "Jane" "jane@x.com" "ABCD"))
      = true ∧
    hasSigningKeyField (marshalProfile (Profile.mk "Jane" "jane@home.org" ""))
      = false := by
  have h := marshal_unmarshal_roundtrip
    [("work", Profile.mk "Jane" "jane@x.com" "ABCD"),
     ("home", Profile.mk "Jane" "jane@home.org" "")] (by decide)
  refine ⟨h.1, ?_, ?_⟩
  · exact (h.2 ("work", Profile.mk "Jane" "jane@x.com" "ABCD")
      (by simp)).mpr (by decide)
  · cases hcase : hasSigningKeyField (marshalProfile (Profile.mk "Jane" "jane@home.org" "")) with
    | false => rfl
    | true =>
      have hne := (h.2 ("home", Profile.mk "Jane" "jane@home.org" "")
        (by simp)).mp hcase
      exact absurd rfl hne

/-- Contents of the config file, as `ConfigManager.load` distinguishes them:
zero-length data (the `len(data) > 0` guard), well-formed JSON text with the
given structure, or text that is not valid JSON (a `json.Unmarshal` syntax
error). -/
inductive FileData
  | empty
  | json (j : Json)
  | malformed

/-- State of the config file path as seen by `ConfigManager.load`: absent
(`os.IsNotExist`), present but unreadable (`os.ReadFile` error), or present
with readable contents. -/
inductive FileState
  | absent
  | unreadable
  | present (d : FileData)

/-- Result of `ConfigManager.load`: either the loaded store, or fatal
termination of the process (`log.Fatal`). -/
inductive LoadResult
  | ok (profiles : Store)
  | fatal
deriving DecidableEq, Repr

/-- Models `ConfigManager.load` (`part_000` lines 374-389, identical in
`main.go` lines 49-64).  An absent file leaves the freshly initialized
empty store; a read error or a JSON parse/decode error is fatal; zero-length
data skips unmarshaling entirely and keeps the empty store. -/
def ConfigManager.load (fs : FileState) : LoadResult :=
  match fs with
  | .absent => .ok []
  | .unreadable => .fatal
  | .present .empty => .ok []
  | .present (.json j) =>
    match unmarshalStore j with
    | some s => .ok s
    | none => .fatal
  | .present .malformed => .fatal

/-- C7: `load` yields an empty store without error when the config file is
absent, and is fatal when the file exists but is unreadable, is not valid
JSON, or is valid JSON that does not decode as a profile mapping. -/
theorem load_absent_and_fatal_cases :
    ConfigManager.load .absent = .ok [] ∧
    ConfigManager.load .unreadable = .fatal ∧
    ConfigManager.load (.present .malformed) = .fatal ∧
    ∀ j, unmarshalStore j = none →
      ConfigManager.load (.present (.json j)) = .fatal := by
  refine ⟨rfl, rfl, rfl, fun j hj => ?_⟩
  simp [ConfigManager.load, hj]

/-- Witness for `load_absent_and_fatal_cases`: the well-formed JSON string
`"x"` is not an object, so it does not decode as a store and loading it is
fatal. -/
theorem load_absent_and_fatal_cases_witness :
    ConfigManager.load (.present (.json (.str "x"))) = .fatal :=
  load_absent_and_fatal_cases.2.2.2 (.str "x") rfl

/-- C10: a present config file of zero length is not unmarshaled at all
(the `len(data) > 0` guard), so `load` succeeds with the empty store even
though empty data is not valid JSON. -/
theorem load_empty_file_ok :
    ConfigManager.load (.present .empty) = .ok [] := rfl

/-- The `git config` invocations issued by `applyCmd` for a profile, in
order (`part_000` lines 676-679; repository-local scope — the `main.go`
variant inserts `--global` but runs the same loop). -/
def applyGitCommands (p : Profile) : List (List String) :=
  [["config", "user.name", p.name], ["config", "user.email", p.email]]

/-- The command loop of `applyCmd` (`part_000` lines 681-687): run each
command in order; on the first non-zero exit, stop (the command prints the
error and returns).  `execOk` gives each invocation's success; the result
is the list of commands actually attempted and whether all succeeded. -/
def runGitCommands (execOk : List String → Bool) :
    List (List String) → List (List String) × Bool
  | [] => ([], true)
  | c :: cs =>
    if execOk c then
      let r := runGitCommands execOk cs
      (c :: r.1, r.2)
    else ([c], false)

/-- Observable outcome of one `applyCmd` run: the external commands
attempted, whether the profile was applied in full, and whether the command
persisted the store (`applyCmd` contains no call to `cm.save()`, so this is
`false` on every path). -/
structure ApplyResult where
  attempted : List (List String)
  success : Bool
  saved : Bool
deriving DecidableEq, Repr

/-- Models `applyCmd` (`part_000` lines 653-691, `main.go` lines 125-152)
after a profile has been selected: run the two `git config` commands
through `runGitCommands`; the store is never saved. -/
def applyCmd (execOk : List String → Bool) (p : Profile) : ApplyResult :=
  ApplyResult.mk (runGitCommands execOk (applyGitCommands p)).1
    (runGitCommands execOk (applyGitCommands p)).2 false

/-- C6: if the first invocation (setting `user.name`) fails, the second
(setting `user.email`) is never attempted — the attempted list is exactly
the first command — the failure is reported (non-fatal result, not
success); and `applyCmd` never persists the store, whatever the external
tool does. -/
theorem applyCmd_stops_after_first_failure (p : Profile)
    (execOk : List String → Bool)
    (h : execOk ["config", "user.name", p.name] = false) :
    applyCmd execOk p
      = ApplyResult.mk [["config", "user.name", p.name]] false false ∧
    ∀ e, (applyCmd e p).saved = false := by
  constructor
  · simp [applyCmd, applyGitCommands, runGitCommands, h]
  · intro e
    rfl

/-- Witness for `applyCmd_stops_after_first_failure`: with an external tool
that fails every invocation, applying a concrete profile attempts only the
`user.name` command and saves nothing. -/
theorem applyCmd_stops_after_first_failure_witness :
    applyCmd (fun _ => false) (Profile.mk "Jane" "jane@x.com" "")
      = ApplyResult.mk [["config", "user.name", "Jane"]] false false :=
  (applyCmd_stops_after_first_failure (Profile.mk "Jane" "jane@x.com" "")
    (fun _ => false) rfl).1

/-- Extension scan of Go's `path/filepath.Ext`, over the reversed character
list of the path: walk backwards from the end; stop with `""` at a path
separator or at the start; on the first dot return the suffix from that dot
on (`suffix` accumulates, in order, the characters already passed). -/
def extScan : List Char → List Char → List Char
  | [], _ => []
  | c :: rest, suffix =>
    if c = '/' then []
    else if c = '.' then c :: suffix
    else extScan rest (c :: suffix)

/-- Models Go's `filepath.Ext`: the suffix of the final slash-separated
path element beginning at its final dot, or `""` if there is none. -/
def filepathExt (path : String) : String :=
  String.mk (extScan path.data.reverse [])

/-- Models the output-path logic of `ConfigManager.Export` (`part_000`
lines 701-714): an empty (absent) path argument defaults to
`git-profiles-export.json` under the home directory (`filepath.Join`
rendered as slash concatenation, exact for a clean home path); then `.json`
is appended whenever `filepath.Ext` of the path is not already `.json`. -/
def exportPath (homeDir outputPath : String) : String :=
  let p := if outputPath = "" then homeDir ++ "/git-profiles-export.json"
           else outputPath
  if filepathExt p = ".json" then p else p ++ ".json"

theorem filepathExt_append_json (s : String) :
    filepathExt (s ++ ".json") = ".json" := by
  have hd : (s ++ ".json").data = s.data ++ ['.', 'j', 's', 'o', 'n'] := by
    have : (".json" : String).data = ['.', 'j', 's', 'o', 'n'] := rfl
    rw [← this]
    exact String.data_append s ".json"
  simp [filepathExt, hd, List.reverse_append, extScan]

/-- C8: with no destination argument the export path is the fixed default
`git-profiles-export.json` under the home directory (whose extension is
already `.json`, so it is used as-is); with a destination argument, `.json`
is appended exactly when the argument's extension is not already `.json`;
in every case the resulting path's extension is `.json`. -/
theorem exportPath_spec (home out : String) :
    (out = "" → exportPath home out = home ++ "/git-profiles-export.json") ∧
    (out ≠ "" → exportPath home out
        = if filepathExt out = ".json" then out else out ++ ".json") ∧
    filepathExt (exportPath home out) = ".json" := by
  have hdef : filepathExt (home ++ "/git-profiles-export.json") = ".json" := by
    have hsplit : home ++ "/git-profiles-export.json"
        = (home ++ "/git-profiles-export") ++ ".json" := by
      rw [String.append_assoc]
      congr 1
    rw [hsplit, filepathExt_append_json]
  by_cases ho : out = ""
  · subst ho
    refine ⟨fun _ => ?_, fun hc => absurd rfl hc, ?_⟩
    · simp [exportPath, hdef]
    · simp [exportPath, hdef]
  · refine ⟨fun hc => absurd hc ho, fun _ => ?_, ?_⟩
    · simp [exportPath, ho]
    · by_cases hx : filepathExt out = ".json"
      · simp [exportPath, ho, hx]
      · simp [exportPath, ho, hx, filepathExt_append_json]

/-- Witness for `exportPath_spec`: export without a path goes to the default
location under the home directory, and an extensionless argument gets
`.json` appended. -/
theorem exportPath_spec_witness :
    exportPath "/home/u" "" = "/home/u/git-profiles-export.json" ∧
    exportPath "/home/u" "myprofiles" = "myprofiles.json" := by
  constructor
  · exact (exportPath_spec "/home/u" "").1 rfl
  · have h := (exportPath_spec "/home/u" "myprofiles").2.1 (by decide)
    rw [h]
    decide

/-- C9: editing an existing profile whose signing key is non-empty can never
clear it: a whitespace-only (hence trimmed-empty) signing-key input keeps
the existing key and any other input replaces it with a non-empty key, so
the result's signing key is non-empty for every possible input. -/
theorem interactiveProfileInput_signingKey_never_cleared (p : Profile)
    (n e k : String) (h : p.signingKey ≠ "") :
    (interactiveProfileInput (some p) n e k).signingKey
      = (if trimSpace k = "" then p.signingKey else trimSpace k) ∧
    (interactiveProfileInput (some p) n e k).signingKey ≠ "" := by
  constructor
  · simp only [interactiveProfileInput, ne_eq, ite_not]
  · by_cases hk : trimSpace k = ""
    · have hg : (interactiveProfileInput (some p) n e k).signingKey
          = p.signingKey := by
        simp [interactiveProfileInput, hk]
      rw [hg]
      exact h
    · have hg : (interactiveProfileInput (some p) n e k).signingKey
          = trimSpace k := by
        simp [interactiveProfileInput, hk]
      rw [hg]
      exact hk

/-- Witness for `interactiveProfileInput_signingKey_never_cleared`: editing
a profile with key `ABCD` under a whitespace-only signing-key input keeps
the key `ABCD`, in particular non-empty. -/
theorem interactiveProfileInput_signingKey_never_cleared_witness :
    (interactiveProfileInput (some (Profile.mk "Jane" "jane@x.com" "ABCD"))
        "" "" "  ").signingKey = "ABCD" ∧
    (interactiveProfileInput (some (Profile.mk "Jane" "jane@x.com" "ABCD"))
        "" "" "  ").signingKey ≠ "" := by
  have h := interactiveProfileInput_signingKey_never_cleared
    (Profile.mk "Jane" "jane@x.com" "ABCD") "" "" "  " (by decide)
  refine ⟨?_, h.2⟩
  rw [h.1]
  decide
